import Mathlib

/-!
# Verification of the TOTP / credential-policy core of `workflow-backend`

Shallow embedding, in Lean 4, of the two-factor-authentication utilities
(`src/utils/twoFactor-fallback.js`, `src/utils/twoFactor.js`), the input
sanitizer (`validatePasswordStrength`) and the password-policy middleware
of the repository, together with theorems settling the frozen claims about
their natural-language specification.

Conventions of the embedding:
* JavaScript byte buffers are `List Nat` with every entry `< 256`.
* JavaScript numbers that the code only ever uses as non-negative integers
  are `Nat`; time-counter offsets that can be negative are `Int`.
* Functions that can throw are `Except JsError _`; a JS `try/catch` is a
  `match` on that `Except`.
* Mutation of a caller-supplied array is made explicit: the function
  returns the final state of the array next to its result (and, for the
  aliasing claim, a heap of arrays indexed by references is threaded).
-/

namespace Workflow

/-- Runtime errors of the JavaScript semantics that the embedded code can
raise (and that the source's `try/catch` blocks intercept). -/
inductive JsError where
  /-- Calling a property that is `undefined` on the receiver. -/
  | typeError : JsError
deriving DecidableEq, Repr

/-! ## Bit-level utilities

`toBits w n` is the big-endian list of the `w` low bits of `n`;
`ofBits` folds a big-endian bit list back into a `Nat`.  These are the
reference vocabulary in which the base32 codec and the round-trip proof
are phrased. -/

/-- Big-endian list of the `w` low bits of `n` (most significant first). -/
def toBits : Nat → Nat → List Bool
  | 0, _ => []
  | w + 1, n => toBits w (n / 2) ++ [n % 2 == 1]

/-- Fold a big-endian bit list into a natural number. -/
def ofBits (l : List Bool) : Nat :=
  l.foldl (fun a b => 2 * a + (if b then 1 else 0)) 0

/-- Group a big-endian bit stream into bytes, dropping a trailing group of
fewer than 8 bits. -/
def bytesOfBits (l : List Bool) : List Nat :=
  if _hlen : 8 ≤ l.length then
    ofBits (l.take 8) :: bytesOfBits (l.drop 8)
  else []
termination_by l.length
decreasing_by simp; omega

/-! ## The fallback base32 decoder

Embeds `base32Decode` of `src/utils/twoFactor-fallback.js`: uppercase the
input, strip every character outside `A-Z2-7`, then run the 5-bit
accumulator loop, emitting a byte whenever at least 8 bits are pending.
JavaScript coerces `value` through signed 32-bit integers at the bitwise
operators; the embedding tracks the same 32-bit pattern as `value % 2^32`
(only the low 12 bits are ever read, so the sign never shows). -/

/-- The RFC 4648 base32 alphabet used by the source. -/
def b32Alphabet : List Char := "ABCDEFGHIJKLMNOPQRSTUVWXYZ234567".toList

/-- `indexOf` of JavaScript on a character list (`none` models `-1`). -/
def jsCharIndexOf (x : Char) : List Char → Option Nat
  | [] => none
  | c :: rest => if c = x then some 0 else (jsCharIndexOf x rest).map (· + 1)

/-- The accumulator loop of `base32Decode` (source lines 114-133). -/
def base32Loop : List Char → Nat → Nat → List Nat
  | [], _, _ => []
  | c :: rest, value, bits =>
    if c = '=' then []
    else
      match jsCharIndexOf c b32Alphabet with
      | none => base32Loop rest value bits
      | some charIndex =>
        let v := ((value <<< 5) ||| charIndex) % 2 ^ 32
        let b := bits + 5
        if 8 ≤ b then ((v >>> (b - 8)) &&& 255) :: base32Loop rest v (b - 8)
        else base32Loop rest v b

/-- `base32Decode` of the fallback module: normalization then the loop. -/
def base32Decode (s : String) : List Nat :=
  base32Loop
    ((s.toList.map Char.toUpper).filter fun c =>
      (decide ('A' ≤ c) && decide (c ≤ 'Z')) || (decide ('2' ≤ c) && decide (c ≤ '7')))
    0 0

/-! ### RFC 4648 base32 encoding (reference side)

The repository has no base32 encoder; the spec's round-trip property is
stated against the standard encoding it names.  Modelled from the spec:
"base32 decode (RFC 4648 alphabet `A-Z2-7`, no padding required)" /
"Round-trip: base32-encode then base32-decode of arbitrary byte strings". -/

/-- The big-endian bit stream of a byte list. -/
def bitsOfBytes (l : List Nat) : List Bool := (l.map (toBits 8)).flatten

/-- Split a bit stream into 5-bit groups, zero-padding the final short
group on the right, as RFC 4648 prescribes. -/
def fiveGroups : List Bool → List Nat
  | b0 :: b1 :: b2 :: b3 :: b4 :: rest => ofBits [b0, b1, b2, b3, b4] :: fiveGroups rest
  | [] => []
  | l => [ofBits (l ++ List.replicate (5 - l.length) false)]

/-- Modelled from the spec: RFC 4648 base32 encoding, alphabet `A-Z2-7`,
without padding characters. -/
def base32Encode (bytes : List Nat) : String :=
  String.mk ((fiveGroups (bitsOfBytes bytes)).map fun v => b32Alphabet.getD v 'A')

/-! ## SHA-1 and HMAC-SHA1

Reference implementations of the standard primitives (FIPS 180 / RFC 2104)
that Node's `crypto.createHmac('sha1', key)` provides to the source.  The
spec pins the derivation to "a keyed hash (HMAC, SHA-1 compatible for
standard TOTP interoperability)"; these definitions are that primitive.
Words are `Nat`s reduced modulo `2 ^ 32` at every step. -/

/-- Truncation to a 32-bit word. -/
def m32 (n : Nat) : Nat := n % 2 ^ 32

/-- 32-bit left rotation. -/
def rotl32 (x s : Nat) : Nat := ((x <<< s) ||| (x >>> (32 - s))) % 2 ^ 32

/-- Big-endian byte encoding of `n` on `w` bytes. -/
def beBytes : Nat → Nat → List Nat
  | 0, _ => []
  | w + 1, n => beBytes w (n / 256) ++ [n % 256]

/-- Group bytes into big-endian 32-bit words (dropping a short tail). -/
def wordsOfBytes : List Nat → List Nat
  | a :: b :: c :: d :: rest =>
    (a * 2 ^ 24 + b * 2 ^ 16 + c * 2 ^ 8 + d) :: wordsOfBytes rest
  | _ => []

/-- SHA-1 message padding: `0x80`, zeros, 64-bit big-endian bit length. -/
def sha1Pad (msg : List Nat) : List Nat :=
  msg ++ 128 :: List.replicate ((55 + 64 - msg.length % 64) % 64) 0 ++
    beBytes 8 (8 * msg.length)

/-- The SHA-1 round function (choose / parity / majority by round). -/
def sha1F (t b c d : Nat) : Nat :=
  if t < 20 then (b &&& c) ||| ((b ^^^ 4294967295) &&& d)
  else if t < 40 then b ^^^ c ^^^ d
  else if t < 60 then (b &&& c) ||| (b &&& d) ||| (c &&& d)
  else b ^^^ c ^^^ d

/-- The SHA-1 round constants. -/
def sha1K (t : Nat) : Nat :=
  if t < 20 then 1518500249
  else if t < 40 then 1859775393
  else if t < 60 then 2400959708
  else 3395469782

/-- Extend a 16-word block by the recurrence `W[t] = rotl1 (W[t-3] ^
W[t-8] ^ W[t-14] ^ W[t-16])`, one word per step. -/
def sha1Extend (ws : List Nat) : Nat → List Nat
  | 0 => ws
  | t + 1 =>
    let prev := sha1Extend ws t
    let n := prev.length
    prev ++ [rotl32 ((prev.getD (n - 3) 0) ^^^ (prev.getD (n - 8) 0) ^^^
      (prev.getD (n - 14) 0) ^^^ (prev.getD (n - 16) 0)) 1]

/-- One SHA-1 round on the five-word working state. -/
def sha1Round (w : List Nat) (st : Nat × Nat × Nat × Nat × Nat) (t : Nat) :
    Nat × Nat × Nat × Nat × Nat :=
  let (a, b, c, d, e) := st
  let temp := (rotl32 a 5 + sha1F t b c d + e + sha1K t + w.getD t 0) % 2 ^ 32
  (temp, a, rotl32 b 30, c, d)

/-- Process 16-word blocks, chaining the 160-bit state. -/
def sha1Blocks : List Nat → (Nat × Nat × Nat × Nat × Nat) → Nat × Nat × Nat × Nat × Nat
  | w0 :: w1 :: w2 :: w3 :: w4 :: w5 :: w6 :: w7 :: w8 :: w9 :: w10 :: w11 :: w12 :: w13 ::
      w14 :: w15 :: rest, (h0, h1, h2, h3, h4) =>
    let w := sha1Extend
      [w0, w1, w2, w3, w4, w5, w6, w7, w8, w9, w10, w11, w12, w13, w14, w15] 64
    let (a, b, c, d, e) := (List.range 80).foldl (sha1Round w) (h0, h1, h2, h3, h4)
    sha1Blocks rest (m32 (h0 + a), m32 (h1 + b), m32 (h2 + c), m32 (h3 + d), m32 (h4 + e))
  | _, st => st

/-- SHA-1 of a byte list, as 20 bytes. -/
def sha1 (msg : List Nat) : List Nat :=
  let st := sha1Blocks (wordsOfBytes (sha1Pad msg))
    (1732584193, 4023233417, 2562383102, 271733878, 3285377520)
  beBytes 4 st.1 ++ beBytes 4 st.2.1 ++ beBytes 4 st.2.2.1 ++
    beBytes 4 st.2.2.2.1 ++ beBytes 4 st.2.2.2.2

/-- HMAC-SHA1 (RFC 2104) with a 64-byte block size. -/
def hmacSha1 (key msg : List Nat) : List Nat :=
  let k1 := if 64 < key.length then sha1 key else key
  let k2 := k1 ++ List.replicate (64 - k1.length) 0
  let ipad := k2.map fun b => b ^^^ 54
  let opad := k2.map fun b => b ^^^ 92
  sha1 (opad ++ sha1 (ipad ++ msg))

/-! ## The fallback TOTP code derivation

Embeds `generateTOTP` and `verify2FAToken` of
`src/utils/twoFactor-fallback.js`.  The source builds an HMAC object and
then calls `hmac.writeUInt32BE(timeCounter, 4)`; Node's `crypto.Hmac`
exposes `update` and `digest` (and the stream interface) but has no
`writeUInt32BE` member, so that property access yields `undefined` and
calling it throws a `TypeError`.  The embedding gives the HMAC object its
two real methods and makes the absent member call return that error. -/

/-- The state of a Node `crypto.Hmac` object: key plus accumulated data. -/
structure HmacState where
  key : List Nat
  data : List Nat
deriving Repr

/-- `crypto.createHmac('sha1', key)`. -/
def createHmacSha1 (key : List Nat) : HmacState := ⟨key, []⟩

/-- `hmac.update(buf)`: append to the accumulated message. -/
def hmacUpdate (st : HmacState) (buf : List Nat) : HmacState :=
  ⟨st.key, st.data ++ buf⟩

/-- `hmac.digest()`: HMAC-SHA1 of the accumulated message. -/
def hmacDigest (st : HmacState) : List Nat := hmacSha1 st.key st.data

/-- `hmac.writeUInt32BE(value, offset)`: `crypto.Hmac` has no member of
this name (it is a `Buffer` method), so the call throws a `TypeError`. -/
def hmacWriteUInt32BE (_st : HmacState) (_value _offset : Nat) :
    Except JsError HmacState :=
  Except.error JsError.typeError

/-- `String(n).padStart(6, '0')` for the 6-digit code. -/
def pad6 (n : Nat) : String :=
  let s := toString n
  String.mk (List.replicate (6 - s.length) '0' ++ s.toList)

/-- `generateTOTP` of the fallback module, exactly as written: update the
HMAC with eight zero bytes, then attempt the absent `writeUInt32BE`
member (which throws), then digest and dynamically truncate. -/
def generateTOTP (secret : String) (timeCounter : Int) : Except JsError String := do
  let key := base32Decode secret
  let hmac := createHmacSha1 key
  let hmac := hmacUpdate hmac (List.replicate 8 0)
  let hmac ← hmacWriteUInt32BE hmac (timeCounter.toNat % 2 ^ 32) 4
  let hash := hmacDigest hmac
  let offset := hash.getD (hash.length - 1) 0 &&& 15
  let code := (((hash.getD offset 0) &&& 127) <<< 24) |||
    (((hash.getD (offset + 1) 0) &&& 255) <<< 16) |||
    (((hash.getD (offset + 2) 0) &&& 255) <<< 8) |||
    ((hash.getD (offset + 3) 0) &&& 255)
  pure (pad6 (code % 1000000))

/-- The verification loop body of `verify2FAToken`: try each candidate
counter in order; an exception propagates to the enclosing `catch`. -/
def verifyLoop (token secret : String) : List Int → Except JsError Bool
  | [] => pure false
  | t :: rest => do
    let expected ← generateTOTP secret t
    if expected = token then pure true else verifyLoop token secret rest

/-- `verify2FAToken(token, secret, window)` evaluated at Unix time
`currentTime` (seconds): counters `timeCounter - window` through
`timeCounter + window`, with the whole body under `try/catch` returning
`false` on any exception. -/
def verify2FAToken (token secret : String) (window : Nat) (currentTime : Nat) : Bool :=
  let timeCounter : Int := (currentTime : Int) / 30
  let offsets := (List.range (2 * window + 1)).map fun k : Nat => (k : Int) - (window : Int)
  match verifyLoop token secret (offsets.map fun i => timeCounter + i) with
  | Except.ok b => b
  | Except.error _ => false

/-- Modelled from the spec: the token-derivation algorithm of §4.1,
"decode secret from base32 to raw bytes → compute a keyed hash (HMAC,
SHA-1 compatible) over an 8-byte big-endian encoding of the candidate
counter → take the last 4 bits of the hash as a byte offset → read 4
bytes at that offset, mask the top bit → reduce modulo 1,000,000 →
zero-pad to 6 digits". -/
def generateTOTPSpec (secret : String) (timeCounter : Nat) : String :=
  let key := base32Decode secret
  let hash := hmacSha1 key (beBytes 8 timeCounter)
  let offset := hash.getD (hash.length - 1) 0 &&& 15
  let code := (((hash.getD offset 0) &&& 127) <<< 24) |||
    ((hash.getD (offset + 1) 0) <<< 16) |||
    ((hash.getD (offset + 2) 0) <<< 8) |||
    (hash.getD (offset + 3) 0)
  pad6 (code % 1000000)

/-- The RFC 6238 reference secret (base32 of the ASCII bytes of
`12345678901234567890`). -/
def rfc6238Secret : String := "GEZDGNBVGY3TQOJQGEZDGNBVGY3TQOJQ"

/-! ## Backup and recovery codes

Embeds `verifyBackupCode` and `verifyRecoveryCode` (identical bodies up
to field and message names) of both `twoFactor.js` and
`twoFactor-fallback.js`.  The JS functions mutate the caller's array via
`splice`; the pure embedding returns the final state of that array next
to the result object, and a heap-indexed variant makes the aliasing of
the returned array explicit for the frame claim. -/

/-- JavaScript `toUpperCase` on the characters of a string. -/
def jsToUpperCase (s : String) : String := String.mk (s.toList.map Char.toUpper)

/-- JavaScript `trim`: strip leading and trailing whitespace. -/
def jsTrim (s : String) : String :=
  String.mk (((s.toList.dropWhile Char.isWhitespace).reverse.dropWhile
    Char.isWhitespace).reverse)

/-- `code.toUpperCase().trim()` — the normalization both verifiers apply. -/
def normalizeCode (code : String) : String := jsTrim (jsToUpperCase code)

/-- JavaScript `indexOf` on a string array (`none` models `-1`). -/
def jsIndexOf (x : String) : List String → Option Nat
  | [] => none
  | y :: rest => if y = x then some 0 else (jsIndexOf x rest).map (· + 1)

/-- The result object of `verifyBackupCode`. -/
structure CodeVerifyResult where
  valid : Bool
  error : Option String
  remainingCodes : Option Nat
  updatedBackupCodes : Option (List String)
deriving Repr, DecidableEq

/-- The result object of `verifyRecoveryCode`. -/
structure RecoveryVerifyResult where
  valid : Bool
  error : Option String
  remainingCodes : Option Nat
  updatedRecoveryCodes : Option (List String)
deriving Repr, DecidableEq

/-- `verifyBackupCode(code, backupCodes)` on an actual array: normalize,
look up, `splice` out one entry on a hit.  Returns the result object and
the final state of the caller's array. -/
def verifyBackupCodePure (code : String) (backupCodes : List String) :
    CodeVerifyResult × List String :=
  let normalizedCode := normalizeCode code
  match jsIndexOf normalizedCode backupCodes with
  | none =>
    ({ valid := false, error := some ("Invalid backup code"),
       remainingCodes := none, updatedBackupCodes := none }, backupCodes)
  | some index =>
    let updated := backupCodes.eraseIdx index
    ({ valid := true, error := none,
       remainingCodes := some updated.length,
       updatedBackupCodes := some updated }, updated)

/-- `verifyRecoveryCode(code, recoveryCodes)` on an actual array. -/
def verifyRecoveryCodePure (code : String) (recoveryCodes : List String) :
    RecoveryVerifyResult × List String :=
  let normalizedCode := normalizeCode code
  match jsIndexOf normalizedCode recoveryCodes with
  | none =>
    ({ valid := false, error := some ("Invalid recovery code"),
       remainingCodes := none, updatedRecoveryCodes := none }, recoveryCodes)
  | some index =>
    let updated := recoveryCodes.eraseIdx index
    ({ valid := true, error := none,
       remainingCodes := some updated.length,
       updatedRecoveryCodes := some updated }, updated)

/-- The `backupCodes` argument as the JS function sees it: an array, or
any non-array value (the `Array.isArray` guard). -/
inductive JsCodesArg where
  | arr (codes : List String)
  | notArray
deriving Repr, DecidableEq

/-- `verifyBackupCode` including the `Array.isArray` input validation. -/
def verifyBackupCode (code : String) : JsCodesArg → CodeVerifyResult × JsCodesArg
  | JsCodesArg.arr codes =>
    let r := verifyBackupCodePure code codes
    (r.1, JsCodesArg.arr r.2)
  | JsCodesArg.notArray =>
    ({ valid := false, error := some ("Invalid backup codes format"),
       remainingCodes := none, updatedBackupCodes := none }, JsCodesArg.notArray)

/-- `verifyRecoveryCode` including the `Array.isArray` input validation. -/
def verifyRecoveryCode (code : String) : JsCodesArg → RecoveryVerifyResult × JsCodesArg
  | JsCodesArg.arr codes =>
    let r := verifyRecoveryCodePure code codes
    (r.1, JsCodesArg.arr r.2)
  | JsCodesArg.notArray =>
    ({ valid := false, error := some ("Invalid recovery codes format"),
       remainingCodes := none, updatedRecoveryCodes := none }, JsCodesArg.notArray)

/-- A heap of string arrays; a JS array value is a reference into it. -/
abbrev Heap := List (List String)

/-- The result object of `verifyBackupCode` at the heap level: the
`updatedBackupCodes` field holds a reference, not a copy. -/
structure CodeVerifyRefResult where
  valid : Bool
  error : Option String
  remainingCodes : Option Nat
  updatedBackupCodes : Option Nat
deriving Repr, DecidableEq

/-- Heap-level `verifyBackupCode(code, h[r])`: `splice` mutates the array
in place (the heap cell at `r` is overwritten) and the result's
`updatedBackupCodes` is the same reference `r` the caller passed in,
while `remainingCodes` is `backupCodes.length`, a number. -/
def verifyBackupCodeRef (code : String) (r : Nat) (h : Heap) :
    CodeVerifyRefResult × Heap :=
  let backupCodes := h.getD r []
  match jsIndexOf (normalizeCode code) backupCodes with
  | none =>
    ({ valid := false, error := some ("Invalid backup code"),
       remainingCodes := none, updatedBackupCodes := none }, h)
  | some index =>
    let updated := backupCodes.eraseIdx index
    ({ valid := true, error := none,
       remainingCodes := some updated.length,
       updatedBackupCodes := some r }, h.set r updated)

/-- Heap-level `verifyRecoveryCode`, identically. -/
def verifyRecoveryCodeRef (code : String) (r : Nat) (h : Heap) :
    CodeVerifyRefResult × Heap :=
  let recoveryCodes := h.getD r []
  match jsIndexOf (normalizeCode code) recoveryCodes with
  | none =>
    ({ valid := false, error := some ("Invalid recovery code"),
       remainingCodes := none, updatedBackupCodes := none }, h)
  | some index =>
    let updated := recoveryCodes.eraseIdx index
    ({ valid := true, error := none,
       remainingCodes := some updated.length,
       updatedBackupCodes := some r }, h.set r updated)

/-! ## Fallback secret generation

Embeds `generate2FASecret` of `twoFactor-fallback.js`:
`crypto.randomBytes(20).toString('base64').replace(/[+/=]/g, '')` and the
hand-assembled `otpauth://` URI.  The 20 random bytes are the explicit
input of the embedding. -/

/-- The standard base64 alphabet. -/
def b64Alphabet : List Char :=
  "ABCDEFGHIJKLMNOPQRSTUVWXYZabcdefghijklmnopqrstuvwxyz0123456789+/".toList

/-- Base64 encoding of a byte list, with `=` padding (Node
`Buffer.toString('base64')`). -/
def base64Encode : List Nat → List Char
  | a :: b :: c :: rest =>
    b64Alphabet.getD (a / 4) 'A' :: b64Alphabet.getD ((a % 4) * 16 + b / 16) 'A' ::
    b64Alphabet.getD ((b % 16) * 4 + c / 64) 'A' :: b64Alphabet.getD (c % 64) 'A' ::
    base64Encode rest
  | [a, b] =>
    [b64Alphabet.getD (a / 4) 'A', b64Alphabet.getD ((a % 4) * 16 + b / 16) 'A',
     b64Alphabet.getD ((b % 16) * 4) 'A', '=']
  | [a] =>
    [b64Alphabet.getD (a / 4) 'A', b64Alphabet.getD ((a % 4) * 16) 'A', '=', '=']
  | [] => []

/-- Hexadecimal digit (uppercase) for percent-escapes. -/
def uriHexDigit (n : Nat) : Char :=
  if n < 10 then Char.ofNat (48 + n) else Char.ofNat (55 + n)

/-- Characters `encodeURIComponent` leaves unescaped. -/
def uriUnreserved (c : Char) : Bool :=
  c.isAlphanum || c ∈ ['-', '_', '.', '!', '~', '*', '\x27', '(', ')']

/-- `encodeURIComponent` for ASCII strings (the emails used here are
ASCII, so one character is one UTF-8 byte). -/
def encodeURIComponent (s : String) : String :=
  String.mk ((s.toList.map fun c =>
    if uriUnreserved c then [c]
    else ['%', uriHexDigit (c.toNat / 16 % 16), uriHexDigit (c.toNat % 16)]).flatten)

/-- The object returned by `generate2FASecret`. -/
structure SecretResult where
  secret : String
  qrCodeUrl : String
  manualEntryKey : String
deriving Repr, DecidableEq

/-- `generate2FASecret(userEmail)` of the fallback module, with the bytes
produced by `crypto.randomBytes(20)` as explicit input: base64-encode
them, delete every `+`, `/` and `=`, and build the URI by hand. -/
def generate2FASecret (randomBytes : List Nat) (userEmail : String) : SecretResult :=
  let secret := String.mk ((base64Encode randomBytes).filter fun c =>
    !(c == '+' || c == '/' || c == '='))
  { secret := secret,
    qrCodeUrl := "otpauth://totp/Seen%20Group%20(" ++ encodeURIComponent userEmail ++
      ")?secret=" ++ secret ++ "&issuer=Seen%20Group",
    manualEntryKey := secret }

/-! ## Password strength validation

Embeds `validatePasswordStrength` of the sanitizer module: seven
independent checks, each pushing its own message, then `isValid` and a
three-level strength from the error count.  `p.length` is the character
count (all passwords of interest are ASCII, where JS string length
agrees). -/

/-- JavaScript `toLowerCase` on the characters of a string. -/
def jsToLowerCase (s : String) : String := String.mk (s.toList.map Char.toLower)

/-- `String.prototype.includes` (substring containment). -/
def listIncludes (needle : List Char) : List Char → Bool
  | [] => needle.isEmpty
  | c :: t => needle.isPrefixOf (c :: t) || listIncludes needle t

/-- `hay.includes(needle)` on strings. -/
def jsIncludes (hay needle : String) : Bool := listIncludes needle.toList hay.toList

/-- `/[a-z]/.test(password)`. -/
def pwHasLower (p : String) : Bool := p.toList.any fun c => decide ('a' ≤ c) && decide (c ≤ 'z')

/-- `/[A-Z]/.test(password)`. -/
def pwHasUpper (p : String) : Bool := p.toList.any fun c => decide ('A' ≤ c) && decide (c ≤ 'Z')

/-- `/\d/.test(password)`. -/
def pwHasDigit (p : String) : Bool := p.toList.any fun c => decide ('0' ≤ c) && decide (c ≤ '9')

/-- The special-character class of the sanitizer and the super-admin
rule. -/
def pwSpecialChars : List Char :=
  ['!', '@', '#', '$', '%', '^', '&', '*', '(', ')', '_', '+', '-', '=', '[', ']',
   '\x7b', '\x7d', ';', '\x27', ':', '\x22', '\\', '|', ',', '.', '<', '>', '/', '?']

/-- The special-character test of `validatePasswordStrength`. -/
def pwHasSpecial (p : String) : Bool := p.toList.any fun c => decide (c ∈ pwSpecialChars)

/-- The blocklist of common weak substrings. -/
def commonPasswords : List String := ["password", "123456", "admin", "qwerty", "letmein"]

/-- The result object of `validatePasswordStrength` (`strength` is absent
on the non-string early return). -/
structure StrengthResult where
  isValid : Bool
  errors : List String
  strength : Option String
deriving Repr, DecidableEq

/-- `validatePasswordStrength` on an actual string. -/
def validatePasswordStrengthStr (password : String) : StrengthResult :=
  let errors :=
    (if password.length < 8 then ["Password must be at least 8 characters long"] else []) ++
    (if 128 < password.length then ["Password must be less than 128 characters"] else []) ++
    (if !pwHasLower password then ["Password must contain at least one lowercase letter"] else []) ++
    (if !pwHasUpper password then ["Password must contain at least one uppercase letter"] else []) ++
    (if !pwHasDigit password then ["Password must contain at least one number"] else []) ++
    (if !pwHasSpecial password then ["Password must contain at least one special character"] else []) ++
    (if commonPasswords.any (fun common => jsIncludes (jsToLowerCase password) common) then
      ["Password contains common weak patterns"] else [])
  { isValid := errors.length == 0,
    errors := errors,
    strength := some (if errors.length == 0 then "strong"
      else if errors.length ≤ 2 then "medium" else "weak") }

/-- The `password` argument as the JS function sees it. -/
inductive JsStringArg where
  | str (s : String)
  | notString
deriving Repr, DecidableEq

/-- `validatePasswordStrength` with the `typeof password !== 'string'`
early return. -/
def validatePasswordStrength : JsStringArg → StrengthResult
  | JsStringArg.str p => validatePasswordStrengthStr p
  | JsStringArg.notString =>
    { isValid := false, errors := ["Password must be a string"], strength := none }

/-! ## Password policy middleware and history

Embeds `isPasswordNotInHistory`, `addPasswordToHistory`, the
`passwordPolicyValidation` middleware decision (on the request fields it
actually reads: `password` and `userId`), and the three tier
configurations of `passwordPolicies`.  The module-level `passwordHistory`
map is threaded explicitly. -/

/-- The module-level `passwordHistory` map (empty list for absent keys,
as `passwordHistory.get(userId) || []`). -/
abbrev PasswordHistory := String → List String

/-- The map before any insertion. -/
def emptyPasswordHistory : PasswordHistory := fun _ => []

/-- `isPasswordNotInHistory(userId, password, historyCount)`: true iff
the password matches none of the first `historyCount` entries. -/
def isPasswordNotInHistory (hist : PasswordHistory) (userId password : String)
    (historyCount : Nat) : Bool :=
  !(((hist userId).take historyCount).contains password)

/-- `addPasswordToHistory(userId, password, maxHistory)`: unshift, then
`splice(maxHistory)` when over the cap. -/
def addPasswordToHistory (hist : PasswordHistory) (userId password : String)
    (maxHistory : Nat) : PasswordHistory :=
  let userHistory := password :: hist userId
  let userHistory :=
    if maxHistory < userHistory.length then userHistory.take maxHistory else userHistory
  fun u => if u = userId then userHistory else hist u

/-- A policy configuration (the option bag of the middleware).  The
middleware destructures `minLength`, `maxLength` and the four `require*`
flags but never reads them again — exactly as in the source. -/
structure PolicyOptions where
  minLength : Nat := 8
  maxLength : Nat := 128
  requireUppercase : Bool := true
  requireLowercase : Bool := true
  requireNumbers : Bool := true
  requireSpecialChars : Bool := true
  checkHistory : Bool := true
  historyCount : Nat := 5
  customRules : List (String → Option String) := []

/-- The middleware's verdict on one request. -/
inductive PolicyDecision where
  | rejected (error : String)
  | allowed
deriving Repr, DecidableEq

/-- The custom-rules loop: first failing rule's message, if any. -/
def firstRuleFailure (rules : List (String → Option String)) (password : String) :
    Option String :=
  match rules with
  | [] => none
  | r :: rest =>
    match r password with
    | some msg => some msg
    | none => firstRuleFailure rest password

/-- The decision of `passwordPolicyValidation(options)` on a request
carrying `password` and `userId`, together with the resulting history
map: missing password → 400; failed strength validation → 400; history
hit (when `checkHistory` and a user id are present) → 400; first failing
custom rule → 400; otherwise the password is recorded (when a user id is
present, with the default `maxHistory = 10`) and the request passes. -/
def passwordPolicyValidation (opts : PolicyOptions) (hist : PasswordHistory)
    (password : Option String) (userId : Option String) :
    PolicyDecision × PasswordHistory :=
  match password with
  | none => (PolicyDecision.rejected ("Password is required"), hist)
  | some p =>
    if !(validatePasswordStrengthStr p).isValid then
      (PolicyDecision.rejected ("Password does not meet security requirements"), hist)
    else if opts.checkHistory && userId.isSome &&
        !(isPasswordNotInHistory hist (userId.getD ("")) p opts.historyCount) then
      (PolicyDecision.rejected ("Password cannot be one of your last " ++
        toString opts.historyCount ++ " passwords"), hist)
    else
      match firstRuleFailure opts.customRules p with
      | some msg => (PolicyDecision.rejected msg, hist)
      | none =>
        match userId with
        | some uid => (PolicyDecision.allowed, addPasswordToHistory hist uid p 10)
        | none => (PolicyDecision.allowed, hist)

/-- The admin tier's custom rule: no common admin patterns. -/
def adminPatternRule (password : String) : Option String :=
  let adminPatterns := ["admin", "password", "root", "administrator"]
  if adminPatterns.any (fun pattern => jsIncludes (jsToLowerCase password) pattern) then
    some ("Password cannot contain common admin patterns")
  else none

/-- The super-admin tier's first custom rule: a longer blocklist. -/
def superAdminPatternRule (password : String) : Option String :=
  let commonPatterns := ["admin", "password", "root", "administrator", "super", "master"]
  if commonPatterns.any (fun pattern => jsIncludes (jsToLowerCase password) pattern) then
    some ("Password cannot contain common patterns")
  else none

/-- The super-admin tier's second custom rule: at least two special
characters. -/
def superAdminSpecialRule (password : String) : Option String :=
  if 2 ≤ (password.toList.filter fun c => decide (c ∈ pwSpecialChars)).length then none
  else some ("Password must contain at least 2 special characters")

/-- `passwordPolicies.user`. -/
def passwordPoliciesUser : PolicyOptions :=
  { minLength := 8, maxLength := 128, requireUppercase := true, requireLowercase := true,
    requireNumbers := true, requireSpecialChars := true, checkHistory := true,
    historyCount := 5, customRules := [] }

/-- `passwordPolicies.admin`. -/
def passwordPoliciesAdmin : PolicyOptions :=
  { minLength := 12, maxLength := 128, requireUppercase := true, requireLowercase := true,
    requireNumbers := true, requireSpecialChars := true, checkHistory := true,
    historyCount := 10, customRules := [adminPatternRule] }

/-- `passwordPolicies.superAdmin`. -/
def passwordPoliciesSuperAdmin : PolicyOptions :=
  { minLength := 16, maxLength := 128, requireUppercase := true, requireLowercase := true,
    requireNumbers := true, requireSpecialChars := true, checkHistory := true,
    historyCount := 15, customRules := [superAdminPatternRule, superAdminSpecialRule] }

/-- Fold a sequence of `(userId, password)` recordings over the history
map. -/
def runHistoryOps (maxHistory : Nat) (ops : List (String × String))
    (hist : PasswordHistory) : PasswordHistory :=
  ops.foldl (fun h op => addPasswordToHistory h op.1 op.2 maxHistory) hist

/-! # Theorems -/

@[simp] theorem toBits_length (w n : Nat) : (toBits w n).length = w := by
  induction w generalizing n with
  | zero => rfl
  | succ w ih => simp [toBits, ih]

theorem ofBits_append (l₁ l₂ : List Bool) :
    ofBits (l₁ ++ l₂) = l₂.foldl (fun a b => 2 * a + (if b then 1 else 0)) (ofBits l₁) := by
  simp [ofBits, List.foldl_append]

@[simp] theorem ofBits_nil : ofBits [] = 0 := rfl

theorem ofBits_snoc (l : List Bool) (b : Bool) :
    ofBits (l ++ [b]) = 2 * ofBits l + (if b then 1 else 0) := by
  simp [ofBits_append, List.foldl]

/-- `toBits` only depends on the low `w` bits. -/
theorem toBits_mod (w n : Nat) : toBits w (n % 2 ^ w) = toBits w n := by
  induction w generalizing n with
  | zero => rfl
  | succ w ih =>
    have hdiv : n % 2 ^ (w + 1) / 2 = n / 2 % 2 ^ w := by
      have := Nat.mod_mul_right_div_self n 2 (2 ^ w)
      simpa [Nat.pow_succ, Nat.mul_comm] using this
    have hmod : n % 2 ^ (w + 1) % 2 = n % 2 :=
      Nat.mod_mod_of_dvd n (dvd_pow_self 2 (Nat.succ_ne_zero w))
    simp [toBits, hdiv, hmod, ih]

/-- Folding the bits of `n` back recovers `n` modulo `2 ^ w`. -/
theorem ofBits_toBits (w n : Nat) : ofBits (toBits w n) = n % 2 ^ w := by
  induction w generalizing n with
  | zero => simp [toBits, Nat.mod_one]
  | succ w ih =>
    have hsplit : n % 2 ^ (w + 1) = 2 * (n / 2 % 2 ^ w) + n % 2 := by
      have h1 : n % 2 ^ (w + 1) / 2 = n / 2 % 2 ^ w := by
        have := Nat.mod_mul_right_div_self n 2 (2 ^ w)
        simpa [Nat.pow_succ, Nat.mul_comm] using this
      have h2 : n % 2 ^ (w + 1) % 2 = n % 2 :=
        Nat.mod_mod_of_dvd n (dvd_pow_self 2 (Nat.succ_ne_zero w))
      omega
    rcases Nat.mod_two_eq_zero_or_one n with h | h <;>
      simp [toBits, ofBits_snoc, ih, h, hsplit]

/-- Splitting a bit window: the high `a` bits then the low `b` bits. -/
theorem toBits_split (a b n : Nat) :
    toBits (a + b) n = toBits a (n / 2 ^ b) ++ toBits b n := by
  induction b generalizing n with
  | zero => simp [toBits]
  | succ b ih =>
    have h1 : a + (b + 1) = (a + b) + 1 := by omega
    have h2 : n / 2 / 2 ^ b = n / 2 ^ (b + 1) := by
      rw [Nat.div_div_eq_div_mul, Nat.pow_succ, Nat.mul_comm]
    calc toBits (a + (b + 1)) n
        = toBits (a + b) (n / 2) ++ [n % 2 == 1] := by rw [h1]; simp [toBits]
      _ = (toBits a (n / 2 / 2 ^ b) ++ toBits b (n / 2)) ++ [n % 2 == 1] := by rw [ih]
      _ = toBits a (n / 2 ^ (b + 1)) ++ (toBits b (n / 2) ++ [n % 2 == 1]) := by
            rw [h2, List.append_assoc]
      _ = toBits a (n / 2 ^ (b + 1)) ++ toBits (b + 1) n := by simp [toBits]

/-- `toBits` is a right inverse of `ofBits` on lists of the right length. -/
theorem toBits_ofBits (l : List Bool) : toBits l.length (ofBits l) = l := by
  induction l using List.reverseRecOn with
  | nil => rfl
  | append_singleton l b ih =>
    have hlen : (l ++ [b]).length = l.length + 1 := by simp
    rw [hlen, ofBits_snoc]
    cases b with
    | false =>
      have hb : (2 * ofBits l + 0) / 2 = ofBits l := by omega
      have hm : (2 * ofBits l + 0) % 2 = 0 := by omega
      simp [toBits, hb, hm, ih]
    | true =>
      have hb : (2 * ofBits l + 1) / 2 = ofBits l := by omega
      have hm : (2 * ofBits l + 1) % 2 = 1 := by omega
      simp [toBits, hb, hm, ih]

theorem bytesOfBits_short {l : List Bool} (h : l.length < 8) : bytesOfBits l = [] := by
  rw [bytesOfBits, dif_neg (Nat.not_le.mpr h)]

theorem bytesOfBits_append8 {l : List Bool} (rest : List Bool) (h : l.length = 8) :
    bytesOfBits (l ++ rest) = ofBits l :: bytesOfBits rest := by
  rw [bytesOfBits]
  have hle : 8 ≤ (l ++ rest).length := by simp [h]
  rw [dif_pos hle, List.take_left' h, List.drop_left' h]

/-! ### Round-trip lemmas -/

theorem jsCharIndexOf_alphabet : ∀ g, g < 32 →
    jsCharIndexOf (b32Alphabet.getD g 'A') b32Alphabet = some g := by decide

theorem alphabet_char_clean : ∀ g, g < 32 →
    Char.toUpper (b32Alphabet.getD g 'A') = b32Alphabet.getD g 'A' ∧
    ((decide ('A' ≤ b32Alphabet.getD g 'A') && decide (b32Alphabet.getD g 'A' ≤ 'Z')) ||
     (decide ('2' ≤ b32Alphabet.getD g 'A') && decide (b32Alphabet.getD g 'A' ≤ '7'))) = true := by
  decide

theorem alphabet_char_ne_eq : ∀ g, g < 32 → b32Alphabet.getD g 'A' ≠ '=' := by decide

/-- Reading a middle window of a number through a 32-bit mask. -/
theorem mod_pow_div_mod (x a s b : Nat) (h : s + b ≤ a) :
    x % 2 ^ a / 2 ^ s % 2 ^ b = x / 2 ^ s % 2 ^ b := by
  have hsplit : 2 ^ a = 2 ^ s * 2 ^ (a - s) := by
    rw [← pow_add]
    congr 1
    omega
  rw [hsplit, Nat.mod_mul_right_div_self]
  exact Nat.mod_mod_of_dvd _ (pow_dvd_pow 2 (by omega))

/-- `toBits` through a 32-bit mask (for windows of at most 32 bits). -/
theorem toBits_mod32 (w x : Nat) (h : w ≤ 32) :
    toBits w (x % 2 ^ 32) = toBits w x := by
  rw [← toBits_mod w (x % 2 ^ 32), Nat.mod_mod_of_dvd _ (pow_dvd_pow 2 h), toBits_mod]

/-- The decode loop, run on alphabet characters of the 5-bit groups `gs`,
computes exactly the byte regrouping of the pending bits followed by the
bits of `gs`. -/
theorem base32Loop_spec (gs : List Nat) :
    ∀ value bits, (∀ g ∈ gs, g < 32) → bits < 8 → value < 2 ^ 32 →
    base32Loop (gs.map fun g => b32Alphabet.getD g 'A') value bits =
      bytesOfBits (toBits bits value ++ (gs.map (toBits 5)).flatten) := by
  induction gs with
  | nil =>
    intro value bits _ hbits _
    simp [base32Loop, bytesOfBits_short, toBits_length, hbits]
  | cons g gs ih =>
    intro value bits hg hbits hvalue
    have hg32 : g < 32 := hg g (List.mem_cons_self g gs)
    have hrest : ∀ a ∈ gs, a < 32 := fun a ha => hg a (List.mem_cons_of_mem g ha)
    have hne : b32Alphabet.getD g 'A' ≠ '=' := alphabet_char_ne_eq g hg32
    have hidx := jsCharIndexOf_alphabet g hg32
    have hor : (value <<< 5) ||| g = 32 * value + g := by
      rw [Nat.shiftLeft_eq]
      rw [show value * 2 ^ 5 = 2 ^ 5 * value by ring]
      rw [← Nat.mul_add_lt_is_or (show g < 2 ^ 5 by omega) value]
    have hdivx : (32 * value + g) / 2 ^ 5 = value := by
      rw [show (2 : Nat) ^ 5 = 32 by norm_num, Nat.mul_add_div (by omega),
        Nat.div_eq_of_lt hg32]
      omega
    have hmodx : (32 * value + g) % 2 ^ 5 = g := by
      rw [show (2 : Nat) ^ 5 = 32 by norm_num, Nat.mul_add_mod]
      exact Nat.mod_eq_of_lt hg32
    have hxbits : toBits (bits + 5) (32 * value + g) = toBits bits value ++ toBits 5 g := by
      rw [toBits_split bits 5, hdivx, ← toBits_mod 5, hmodx]
    simp only [List.map_cons, base32Loop, if_neg hne, hidx, hor]
    by_cases hcase : 8 ≤ bits + 5
    · rw [if_pos hcase]
      have hsum : 8 + (bits + 5 - 8) = bits + 5 := by omega
      have hxsplit : toBits (bits + 5) (32 * value + g) =
          toBits 8 ((32 * value + g) / 2 ^ (bits + 5 - 8)) ++
            toBits (bits + 5 - 8) (32 * value + g) := by
        rw [← toBits_split 8 (bits + 5 - 8), hsum]
      have hbyte : (((32 * value + g) % 2 ^ 32) >>> (bits + 5 - 8)) &&& 255 =
          ofBits (toBits 8 ((32 * value + g) / 2 ^ (bits + 5 - 8))) := by
        rw [ofBits_toBits, Nat.shiftRight_eq_div_pow]
        rw [show (255 : Nat) = 2 ^ 8 - 1 by norm_num, Nat.and_pow_two_sub_one_eq_mod]
        exact mod_pow_div_mod (32 * value + g) 32 (bits + 5 - 8) 8 (by omega)
      rw [ih ((32 * value + g) % 2 ^ 32) (bits + 5 - 8) hrest (by omega)
        (Nat.mod_lt _ (by positivity))]
      rw [toBits_mod32 _ _ (by omega), hbyte, List.flatten_cons, ← List.append_assoc,
        ← hxbits, hxsplit, List.append_assoc,
        bytesOfBits_append8 _ (toBits_length _ _)]
    · rw [if_neg hcase]
      rw [ih ((32 * value + g) % 2 ^ 32) (bits + 5) hrest (by omega)
        (Nat.mod_lt _ (by positivity))]
      rw [toBits_mod32 _ _ (by omega), hxbits, List.flatten_cons, ← List.append_assoc]

/-- A big-endian bit list folds to a value below `2 ^ length`. -/
theorem ofBits_lt (l : List Bool) : ofBits l < 2 ^ l.length := by
  induction l using List.reverseRecOn with
  | nil => simp
  | append_singleton l b ih =>
    rw [ofBits_snoc]
    simp only [List.length_append, List.length_singleton, pow_succ]
    cases b <;> simp <;> omega

/-- Every 5-bit group produced by `fiveGroups` is below 32. -/
theorem fiveGroups_lt : (l : List Bool) → ∀ g ∈ fiveGroups l, g < 32
  | b0 :: b1 :: b2 :: b3 :: b4 :: rest => by
    intro g hg
    rcases List.mem_cons.mp hg with h | h
    · subst h
      have := ofBits_lt [b0, b1, b2, b3, b4]
      simpa using this
    · exact fiveGroups_lt rest g h
  | [] => by intro g hg; simp [fiveGroups] at hg
  | [b0] => by
    intro g hg
    simp only [fiveGroups, List.mem_singleton] at hg
    subst hg
    have := ofBits_lt ([b0] ++ List.replicate (5 - 1) false)
    simpa using this
  | [b0, b1] => by
    intro g hg
    simp only [fiveGroups, List.mem_singleton] at hg
    subst hg
    have := ofBits_lt ([b0, b1] ++ List.replicate (5 - 2) false)
    simpa using this
  | [b0, b1, b2] => by
    intro g hg
    simp only [fiveGroups, List.mem_singleton] at hg
    subst hg
    have := ofBits_lt ([b0, b1, b2] ++ List.replicate (5 - 3) false)
    simpa using this
  | [b0, b1, b2, b3] => by
    intro g hg
    simp only [fiveGroups, List.mem_singleton] at hg
    subst hg
    have := ofBits_lt ([b0, b1, b2, b3] ++ List.replicate (5 - 4) false)
    simpa using this

/-- The bits of the 5-bit groups of a stream are the stream followed by
fewer than five padding zeros. -/
theorem fiveGroups_bits : (l : List Bool) → ∃ k, k < 5 ∧
    ((fiveGroups l).map (toBits 5)).flatten = l ++ List.replicate k false
  | b0 :: b1 :: b2 :: b3 :: b4 :: rest => by
    obtain ⟨k, hk, ih⟩ := fiveGroups_bits rest
    refine ⟨k, hk, ?_⟩
    have h5 : toBits 5 (ofBits [b0, b1, b2, b3, b4]) = [b0, b1, b2, b3, b4] := by
      have := toBits_ofBits [b0, b1, b2, b3, b4]
      simpa using this
    simp [fiveGroups, h5, ih]
  | [] => ⟨0, by omega, by simp [fiveGroups]⟩
  | [b0] => by
    refine ⟨4, by omega, ?_⟩
    have := toBits_ofBits ([b0] ++ List.replicate (5 - 1) false)
    simp only [fiveGroups]
    simp at this ⊢
    exact this
  | [b0, b1] => by
    refine ⟨3, by omega, ?_⟩
    have := toBits_ofBits ([b0, b1] ++ List.replicate (5 - 2) false)
    simp only [fiveGroups]
    simp at this ⊢
    exact this
  | [b0, b1, b2] => by
    refine ⟨2, by omega, ?_⟩
    have := toBits_ofBits ([b0, b1, b2] ++ List.replicate (5 - 3) false)
    simp only [fiveGroups]
    simp at this ⊢
    exact this
  | [b0, b1, b2, b3] => by
    refine ⟨1, by omega, ?_⟩
    have := toBits_ofBits ([b0, b1, b2, b3] ++ List.replicate (5 - 4) false)
    simp only [fiveGroups]
    simp at this ⊢
    exact this

/-- Regrouping the bit stream of a byte list into bytes recovers the
bytes, for any tail of fewer than eight stray bits. -/
theorem bytesOfBits_bitsOfBytes (bytes : List Nat) (pad : List Bool)
    (hb : ∀ b ∈ bytes, b < 256) (hp : pad.length < 8) :
    bytesOfBits (bitsOfBytes bytes ++ pad) = bytes := by
  induction bytes with
  | nil => simp [bitsOfBytes, bytesOfBits_short, hp]
  | cons b bs ih =>
    have hb0 : b < 256 := hb b (List.mem_cons_self b bs)
    have hbs : ∀ a ∈ bs, a < 256 := fun a ha => hb a (List.mem_cons_of_mem b ha)
    simp only [bitsOfBytes, List.map_cons, List.flatten_cons, List.append_assoc]
    rw [bytesOfBits_append8 _ (toBits_length 8 b), ofBits_toBits,
      Nat.mod_eq_of_lt (by omega : b < 2 ^ 8)]
    exact congrArg (b :: ·) (ih hbs)

/-- Normalization (uppercase + strip) is the identity on alphabet output. -/
theorem clean_encode (gs : List Nat) (h : ∀ g ∈ gs, g < 32) :
    (((gs.map fun g => b32Alphabet.getD g 'A').map Char.toUpper).filter fun c =>
      (decide ('A' ≤ c) && decide (c ≤ 'Z')) || (decide ('2' ≤ c) && decide (c ≤ '7'))) =
      gs.map fun g => b32Alphabet.getD g 'A' := by
  induction gs with
  | nil => rfl
  | cons g gs ih =>
    have hg := alphabet_char_clean g (h g (List.mem_cons_self g gs))
    have hrest : ∀ a ∈ gs, a < 32 := fun a ha => h a (List.mem_cons_of_mem g ha)
    simp only [List.map_cons, List.filter_cons, hg.1, hg.2, ih hrest, if_pos]

/-- C9.  For every byte string, decoding (with the fallback `base32Decode`
of `twoFactor-fallback.js`) the RFC 4648 base32 encoding of the bytes
returns exactly the original bytes. -/
theorem c9_base32_roundtrip (bytes : List Nat) (h : ∀ b ∈ bytes, b < 256) :
    base32Decode (base32Encode bytes) = bytes := by
  have hlt := fiveGroups_lt (bitsOfBytes bytes)
  obtain ⟨k, hk, hbits⟩ := fiveGroups_bits (bitsOfBytes bytes)
  unfold base32Decode base32Encode
  have hmk : (String.mk ((fiveGroups (bitsOfBytes bytes)).map fun v =>
      b32Alphabet.getD v 'A')).toList =
      (fiveGroups (bitsOfBytes bytes)).map fun v => b32Alphabet.getD v 'A' := rfl
  rw [hmk, clean_encode _ hlt, base32Loop_spec _ 0 0 hlt (by omega) (by positivity)]
  rw [show toBits 0 0 = [] from rfl, List.nil_append, hbits]
  exact bytesOfBits_bitsOfBytes bytes _ h (by simp; omega)

/-- Concrete instance of the round trip at a 20-byte input. -/
theorem c9_base32_roundtrip_witness :
    (∀ b ∈ [0, 1, 2, 3, 77, 255, 254, 100, 200, 31, 32, 33, 64, 65, 66, 128, 129, 130, 250, 7],
      b < 256) ∧
    base32Decode (base32Encode
      [0, 1, 2, 3, 77, 255, 254, 100, 200, 31, 32, 33, 64, 65, 66, 128, 129, 130, 250, 7]) =
      [0, 1, 2, 3, 77, 255, 254, 100, 200, 31, 32, 33, 64, 65, 66, 128, 129, 130, 250, 7] :=
  ⟨by decide, c9_base32_roundtrip _ (by decide)⟩

/-- The embedded decoder recovers the RFC 6238 reference key (the ASCII
bytes of `12345678901234567890`) from its base32 form. -/
theorem base32Decode_rfc6238 : base32Decode rfc6238Secret =
    [49, 50, 51, 52, 53, 54, 55, 56, 57, 48, 49, 50, 51, 52, 53, 54, 55, 56, 57, 48] := by
  decide

/-- `generateTOTP` as written always throws: the absent `writeUInt32BE`
member is reached on every path. -/
theorem generateTOTP_throws (secret : String) (t : Int) :
    generateTOTP secret t = Except.error JsError.typeError := rfl

/-- The verification loop fails with the propagated `TypeError` as soon as
there is at least one candidate counter. -/
theorem verifyLoop_error (token secret : String) (t : Int) (rest : List Int) :
    verifyLoop token secret (t :: rest) = Except.error JsError.typeError := rfl

set_option maxRecDepth 10000 in
/-- C1.  The claim says `verifyToken(correctCodeForNow, secret, window=1)`
accepts the code derived by the specified base32 / HMAC-SHA1 / dynamic
truncation algorithm at any time within 30 seconds.  On the code as
written it is false: `verify2FAToken` returns `false` on every input
(first conjunct), because `generateTOTP` calls the nonexistent
`hmac.writeUInt32BE` and the resulting `TypeError` is caught and turned
into `false`.  In particular (third conjunct) the RFC 6238 vector — the
correct spec-side code `287082` for counter 1, i.e. Unix time 59 — is
rejected, although the spec-side derivation produces exactly that code
(second conjunct). -/
theorem c1_verify2FAToken_never_accepts :
    (∀ token secret window currentTime,
      verify2FAToken token secret window currentTime = false) ∧
    generateTOTPSpec rfc6238Secret 1 = "287082" ∧
    verify2FAToken ("287082") rfc6238Secret 1 59 = false := by
  have hall : ∀ token secret window currentTime,
      verify2FAToken token secret window currentTime = false := by
    intro token secret window currentTime
    unfold verify2FAToken
    simp only [List.range_succ_eq_map, List.map_cons, verifyLoop_error]
  exact ⟨hall, by decide, hall _ _ _ _⟩

/-! ### Lemmas about `indexOf` + `splice` -/

theorem jsIndexOf_eq_none (x : String) (l : List String) :
    jsIndexOf x l = none ↔ x ∉ l := by
  induction l with
  | nil => simp [jsIndexOf]
  | cons y rest ih =>
    by_cases h : y = x
    · subst h
      simp [jsIndexOf]
    · simp only [jsIndexOf, if_neg h, Option.map_eq_none', ih, List.mem_cons]
      constructor
      · intro hx hor
        rcases hor with hxy | hxr
        · exact h hxy.symm
        · exact hx hxr
      · intro hx hxr
        exact hx (Or.inr hxr)

theorem jsIndexOf_eraseIdx (x : String) :
    ∀ (l : List String) (i : Nat), jsIndexOf x l = some i → l.eraseIdx i = l.erase x := by
  intro l
  induction l with
  | nil => intro i h; simp [jsIndexOf] at h
  | cons y rest ih =>
    intro i h
    by_cases hy : y = x
    · subst hy
      have h0 : i = 0 := by
        simp [jsIndexOf] at h
        omega
      subst h0
      simp [List.eraseIdx, List.erase_cons_head]
    · simp only [jsIndexOf, if_neg hy, Option.map_eq_some'] at h
      obtain ⟨j, hj, hij⟩ := h
      subst hij
      have hbeq : (y == x) = false := beq_false_of_ne hy
      simp [List.eraseIdx, List.erase_cons, hbeq, ih j hj]

/-- Case characterization of `verifyBackupCodePure`: a hit erases the
first matching entry, a miss leaves the array untouched. -/
theorem verifyBackupCodePure_eq (code : String) (codes : List String) :
    verifyBackupCodePure code codes =
      if normalizeCode code ∈ codes then
        ({ valid := true, error := none,
           remainingCodes := some ((codes.erase (normalizeCode code)).length),
           updatedBackupCodes := some (codes.erase (normalizeCode code)) },
         codes.erase (normalizeCode code))
      else
        ({ valid := false, error := some ("Invalid backup code"),
           remainingCodes := none, updatedBackupCodes := none }, codes) := by
  unfold verifyBackupCodePure
  by_cases hmem : normalizeCode code ∈ codes
  · have hex : ∃ i, jsIndexOf (normalizeCode code) codes = some i := by
      rcases hcase : jsIndexOf (normalizeCode code) codes with _ | i
      · exact absurd ((jsIndexOf_eq_none _ _).mp hcase) (not_not_intro hmem)
      · exact ⟨i, rfl⟩
    obtain ⟨i, hi⟩ := hex
    simp [hi, jsIndexOf_eraseIdx _ _ _ hi, hmem]
  · simp [(jsIndexOf_eq_none _ _).mpr hmem, hmem]

/-- Case characterization of `verifyRecoveryCodePure`. -/
theorem verifyRecoveryCodePure_eq (code : String) (codes : List String) :
    verifyRecoveryCodePure code codes =
      if normalizeCode code ∈ codes then
        ({ valid := true, error := none,
           remainingCodes := some ((codes.erase (normalizeCode code)).length),
           updatedRecoveryCodes := some (codes.erase (normalizeCode code)) },
         codes.erase (normalizeCode code))
      else
        ({ valid := false, error := some ("Invalid recovery code"),
           remainingCodes := none, updatedRecoveryCodes := none }, codes) := by
  unfold verifyRecoveryCodePure
  by_cases hmem : normalizeCode code ∈ codes
  · have hex : ∃ i, jsIndexOf (normalizeCode code) codes = some i := by
      rcases hcase : jsIndexOf (normalizeCode code) codes with _ | i
      · exact absurd ((jsIndexOf_eq_none _ _).mp hcase) (not_not_intro hmem)
      · exact ⟨i, rfl⟩
    obtain ⟨i, hi⟩ := hex
    simp [hi, jsIndexOf_eraseIdx _ _ _ hi, hmem]
  · simp [(jsIndexOf_eq_none _ _).mpr hmem, hmem]

/-- C4.  Contract of backup/recovery code verification: normalization is
uppercase+trim (it is the `normalizeCode` both characterizations are
phrased in); a present code removes exactly one matching entry (length
drops by one, the matched value's multiplicity drops by one, all other
multiplicities survive) and returns `valid=true` with the updated list; a
missing code returns `valid=false` with the list unchanged; a non-array
argument returns `valid=false` with an error tag instead of throwing. -/
theorem c4_code_verification_contract (code : String) (codes : List String) :
    (verifyBackupCode code (JsCodesArg.arr codes) =
      if normalizeCode code ∈ codes then
        ({ valid := true, error := none,
           remainingCodes := some ((codes.erase (normalizeCode code)).length),
           updatedBackupCodes := some (codes.erase (normalizeCode code)) },
         JsCodesArg.arr (codes.erase (normalizeCode code)))
      else
        ({ valid := false, error := some ("Invalid backup code"),
           remainingCodes := none, updatedBackupCodes := none },
         JsCodesArg.arr codes)) ∧
    (verifyRecoveryCode code (JsCodesArg.arr codes) =
      if normalizeCode code ∈ codes then
        ({ valid := true, error := none,
           remainingCodes := some ((codes.erase (normalizeCode code)).length),
           updatedRecoveryCodes := some (codes.erase (normalizeCode code)) },
         JsCodesArg.arr (codes.erase (normalizeCode code)))
      else
        ({ valid := false, error := some ("Invalid recovery code"),
           remainingCodes := none, updatedRecoveryCodes := none },
         JsCodesArg.arr codes)) ∧
    verifyBackupCode code JsCodesArg.notArray =
      ({ valid := false, error := some ("Invalid backup codes format"),
         remainingCodes := none, updatedBackupCodes := none }, JsCodesArg.notArray) ∧
    verifyRecoveryCode code JsCodesArg.notArray =
      ({ valid := false, error := some ("Invalid recovery codes format"),
         remainingCodes := none, updatedRecoveryCodes := none }, JsCodesArg.notArray) ∧
    (normalizeCode code ∈ codes →
      (codes.erase (normalizeCode code)).length + 1 = codes.length ∧
      (codes.erase (normalizeCode code)).count (normalizeCode code) + 1 =
        codes.count (normalizeCode code) ∧
      ∀ x, x ≠ normalizeCode code →
        (codes.erase (normalizeCode code)).count x = codes.count x) := by
  refine ⟨?_, ?_, rfl, rfl, ?_⟩
  · rw [show verifyBackupCode code (JsCodesArg.arr codes) =
      ((verifyBackupCodePure code codes).1,
        JsCodesArg.arr (verifyBackupCodePure code codes).2) from rfl,
      verifyBackupCodePure_eq]
    by_cases hmem : normalizeCode code ∈ codes <;> simp [hmem]
  · rw [show verifyRecoveryCode code (JsCodesArg.arr codes) =
      ((verifyRecoveryCodePure code codes).1,
        JsCodesArg.arr (verifyRecoveryCodePure code codes).2) from rfl,
      verifyRecoveryCodePure_eq]
    by_cases hmem : normalizeCode code ∈ codes <;> simp [hmem]
  · intro hmem
    have hpos : 0 < codes.count (normalizeCode code) := List.count_pos_iff.mpr hmem
    refine ⟨?_, ?_, ?_⟩
    · have := List.length_erase_of_mem hmem
      have hlen : 0 < codes.length := List.length_pos_of_mem hmem
      omega
    · rw [List.count_erase_self]
      omega
    · intro x hx
      rw [List.count_erase_of_ne (fun hxe => hx hxe)]

/-- Closed instance of the C4 contract discharging its one hypothesis. -/
theorem c4_code_verification_contract_witness :
    (["B2", "X"].erase (normalizeCode ("b2"))).length + 1 =
      (["B2", "X"] : List String).length ∧
    (["B2", "X"].erase (normalizeCode ("b2"))).count (normalizeCode ("b2")) + 1 =
      (["B2", "X"] : List String).count (normalizeCode ("b2")) :=
  ⟨((c4_code_verification_contract ("b2") ["B2", "X"]).2.2.2.2 (by decide)).1,
   ((c4_code_verification_contract ("b2") ["B2", "X"]).2.2.2.2 (by decide)).2.1⟩

/-- C3 as stated is false on the code: with a duplicated entry, a
consumed code verifies again.  On `["AAAA1111", "AAAA1111"]` the first
call succeeds and leaves `["AAAA1111"]`, and the second call on that
updated list returns `valid = true`, where the claim demands `false`. -/
theorem c3_counterexample :
    (verifyBackupCodePure ("AAAA1111") ["AAAA1111", "AAAA1111"]).1.valid = true ∧
    (verifyBackupCodePure ("AAAA1111") ["AAAA1111", "AAAA1111"]).2 = ["AAAA1111"] ∧
    (verifyBackupCodePure ("AAAA1111")
      ((verifyBackupCodePure ("AAAA1111") ["AAAA1111", "AAAA1111"]).2)).1.valid = true ∧
    (verifyRecoveryCodePure ("AAAA1111")
      ((verifyRecoveryCodePure ("AAAA1111") ["AAAA1111", "AAAA1111"]).2)).1.valid = true := by
  decide

/-- C3 (amended).  When the submitted code occurs at most once in the
list — in particular whenever the stored codes are distinct — a code
consumed by a `valid=true` call never verifies again: the second call
against the updated list returns `valid=false`.  Likewise for recovery
codes. -/
theorem c3_consumed_code_fails (code : String) (codes : List String)
    (hcount : codes.count (normalizeCode code) ≤ 1)
    (hvalid : (verifyBackupCodePure code codes).1.valid = true) :
    (verifyBackupCodePure code ((verifyBackupCodePure code codes).2)).1.valid = false ∧
    (verifyRecoveryCodePure code ((verifyRecoveryCodePure code codes).2)).1.valid = false := by
  by_cases hmem : normalizeCode code ∈ codes
  · have hnot : normalizeCode code ∉ codes.erase (normalizeCode code) := by
      rw [← List.count_eq_zero, List.count_erase_self]
      omega
    constructor
    · have h2 : (verifyBackupCodePure code codes).2 = codes.erase (normalizeCode code) := by
        rw [verifyBackupCodePure_eq, if_pos hmem]
      rw [h2, verifyBackupCodePure_eq, if_neg hnot]
    · have h2 : (verifyRecoveryCodePure code codes).2 = codes.erase (normalizeCode code) := by
        rw [verifyRecoveryCodePure_eq, if_pos hmem]
      rw [h2, verifyRecoveryCodePure_eq, if_neg hnot]
  · rw [verifyBackupCodePure_eq, if_neg hmem] at hvalid
    simp at hvalid

/-- Closed instance of the amended C3 at a concrete consumed code. -/
theorem c3_consumed_code_fails_witness :
    ((["ABCD"] : List String).count (normalizeCode ("ABCD")) ≤ 1) ∧
    (verifyBackupCodePure ("ABCD") ["ABCD"]).1.valid = true ∧
    (verifyBackupCodePure ("ABCD")
      ((verifyBackupCodePure ("ABCD") ["ABCD"]).2)).1.valid = false ∧
    (verifyRecoveryCodePure ("ABCD")
      ((verifyRecoveryCodePure ("ABCD") ["ABCD"]).2)).1.valid = false :=
  ⟨by decide, by decide,
   (c3_consumed_code_fails ("ABCD") ["ABCD"] (by decide) (by decide)).1,
   (c3_consumed_code_fails ("ABCD") ["ABCD"] (by decide) (by decide)).2⟩

theorem heap_getD_set_self (h : Heap) (r : Nat) (v : List String) (hr : r < h.length) :
    (h.set r v).getD r [] = v := by
  simp [List.getD_eq_getElem?_getD, List.getElem?_set_self hr]

theorem heap_getD_set_ne (h : Heap) (r q : Nat) (v : List String) (hq : q ≠ r) :
    (h.set r v).getD q [] = h.getD q [] := by
  simp [List.getD_eq_getElem?_getD, List.getElem?_set_ne (fun he => hq he.symm)]

/-- C10.  On a successful match both verifiers mutate the caller's array
in place: the heap cell the caller's reference points to is overwritten
with the list minus the consumed entry, every other cell is untouched,
the returned `updatedBackupCodes`/`updatedRecoveryCodes` field is the
very same reference the caller passed in, and `remainingCodes` is the
count of codes left, not a list. -/
theorem c10_splice_mutates_in_place (code : String) (r : Nat) (h : Heap)
    (hr : r < h.length) (hmem : normalizeCode code ∈ h.getD r []) :
    ((verifyBackupCodeRef code r h).1.valid = true ∧
     (verifyBackupCodeRef code r h).1.updatedBackupCodes = some r ∧
     (verifyBackupCodeRef code r h).2.getD r [] =
       (h.getD r []).erase (normalizeCode code) ∧
     (∀ q, q ≠ r → (verifyBackupCodeRef code r h).2.getD q [] = h.getD q []) ∧
     (verifyBackupCodeRef code r h).1.remainingCodes =
       some (((h.getD r []).erase (normalizeCode code)).length)) ∧
    ((verifyRecoveryCodeRef code r h).1.valid = true ∧
     (verifyRecoveryCodeRef code r h).1.updatedBackupCodes = some r ∧
     (verifyRecoveryCodeRef code r h).2.getD r [] =
       (h.getD r []).erase (normalizeCode code) ∧
     (∀ q, q ≠ r → (verifyRecoveryCodeRef code r h).2.getD q [] = h.getD q []) ∧
     (verifyRecoveryCodeRef code r h).1.remainingCodes =
       some (((h.getD r []).erase (normalizeCode code)).length)) := by
  have hex : ∃ i, jsIndexOf (normalizeCode code) (h.getD r []) = some i := by
    rcases hcase : jsIndexOf (normalizeCode code) (h.getD r []) with _ | i
    · exact absurd ((jsIndexOf_eq_none _ _).mp hcase) (not_not_intro hmem)
    · exact ⟨i, rfl⟩
  obtain ⟨i, hi⟩ := hex
  have herase := jsIndexOf_eraseIdx _ _ _ hi
  constructor
  · refine ⟨?_, ?_, ?_, ?_, ?_⟩
    · simp only [verifyBackupCodeRef, hi]
    · simp only [verifyBackupCodeRef, hi]
    · simp only [verifyBackupCodeRef, hi]
      rw [heap_getD_set_self _ _ _ hr, herase]
    · intro q hq
      simp only [verifyBackupCodeRef, hi]
      exact heap_getD_set_ne _ _ _ _ hq
    · simp only [verifyBackupCodeRef, hi, herase]
  · refine ⟨?_, ?_, ?_, ?_, ?_⟩
    · simp only [verifyRecoveryCodeRef, hi]
    · simp only [verifyRecoveryCodeRef, hi]
    · simp only [verifyRecoveryCodeRef, hi]
      rw [heap_getD_set_self _ _ _ hr, herase]
    · intro q hq
      simp only [verifyRecoveryCodeRef, hi]
      exact heap_getD_set_ne _ _ _ _ hq
    · simp only [verifyRecoveryCodeRef, hi, herase]

/-- Closed instance of C10 on a two-cell heap. -/
theorem c10_splice_mutates_in_place_witness :
    (verifyBackupCodeRef ("ab") 0 [["AB", "CD"], ["X"]]).1.updatedBackupCodes = some 0 ∧
    (verifyBackupCodeRef ("ab") 0 [["AB", "CD"], ["X"]]).2.getD 0 [] =
      ((([["AB", "CD"], ["X"]] : Heap).getD 0 []).erase (normalizeCode ("ab"))) ∧
    (verifyBackupCodeRef ("ab") 0 [["AB", "CD"], ["X"]]).1.remainingCodes =
      some (((([["AB", "CD"], ["X"]] : Heap).getD 0 []).erase (normalizeCode ("ab"))).length) :=
  by
  have hc := c10_splice_mutates_in_place ("ab") 0 [["AB", "CD"], ["X"]]
    (by decide) (by decide)
  exact ⟨hc.1.2.1, hc.1.2.2.1, hc.1.2.2.2.2⟩

set_option maxRecDepth 4000 in
/-- C2 is right about the intent but the fallback code violates it: the
secret is `randomBytes(20).toString('base64')` with `+`, `/`, `=`
deleted, so it is drawn from the base64 alphabet, not base32.  With all
random bytes `0xFF` the 28-character base64 string is stripped down to
the single character `8` (first conjunct) — a digit outside the claimed
`A-Z2-7` alphabet (second conjunct); with first byte `104` the secret
starts with a lowercase `a`, also outside `A-Z2-7` (third conjunct).
The last two conjuncts record the parts the code does satisfy: the
provisioning URI shape at a concrete input, and `manualEntryKey =
secret` always. -/
theorem c2_fallback_secret_not_base32 :
    (generate2FASecret (List.replicate 20 255) ("a@b.com")).secret = "8" ∧
    ((generate2FASecret (List.replicate 20 255) ("a@b.com")).secret.toList.any
      fun c => !((decide ('A' ≤ c) && decide (c ≤ 'Z')) ||
        (decide ('2' ≤ c) && decide (c ≤ '7')))) = true ∧
    ((generate2FASecret ((104 : Nat) :: List.replicate 19 0) ("a@b.com")).secret.toList.any
      fun c => !((decide ('A' ≤ c) && decide (c ≤ 'Z')) ||
        (decide ('2' ≤ c) && decide (c ≤ '7')))) = true ∧
    (generate2FASecret (List.replicate 20 255) ("a@b.com")).qrCodeUrl =
      "otpauth://totp/Seen%20Group%20(a%40b.com)?secret=8&issuer=Seen%20Group" ∧
    (∀ randomBytes userEmail,
      (generate2FASecret randomBytes userEmail).manualEntryKey =
        (generate2FASecret randomBytes userEmail).secret) :=
  ⟨by decide, by decide, by decide, by decide, fun _ _ => rfl⟩

/-! ### Strength validation (C6) -/

theorem mem_ite_singleton {c : Prop} [Decidable c] (a b : String) :
    (a ∈ if c then [b] else []) ↔ (c ∧ a = b) := by
  split <;> simp_all

theorem ite_singleton_eq_nil {c : Prop} [Decidable c] (b : String) :
    ((if c then [b] else []) = []) ↔ ¬c := by
  split <;> simp_all

/-- C6.  `validatePasswordStrength` performs the seven independent checks,
each owning its error message (the seven membership equivalences);
`isValid` holds exactly when no check fails (equivalently, when all seven
conditions are satisfied); `strength` is `strong`/`medium`/`weak` at
0 / 1-2 / 3+ errors; and non-string input yields `isValid = false` with
the type error message (and never an exception: the embedding is total). -/
theorem c6_validate_password_strength (p : String) :
    ((validatePasswordStrength (JsStringArg.str p)).isValid = true ↔
      (validatePasswordStrength (JsStringArg.str p)).errors = []) ∧
    ((validatePasswordStrength (JsStringArg.str p)).isValid = true ↔
      (8 ≤ p.length ∧ p.length ≤ 128 ∧ pwHasLower p = true ∧ pwHasUpper p = true ∧
       pwHasDigit p = true ∧ pwHasSpecial p = true ∧
       ∀ common ∈ commonPasswords, jsIncludes (jsToLowerCase p) common = false)) ∧
    ((validatePasswordStrength (JsStringArg.str p)).strength =
      some (if (validatePasswordStrength (JsStringArg.str p)).errors.length = 0 then "strong"
        else if (validatePasswordStrength (JsStringArg.str p)).errors.length ≤ 2 then "medium"
        else "weak")) ∧
    (("Password must be at least 8 characters long" ∈
        (validatePasswordStrength (JsStringArg.str p)).errors ↔ p.length < 8) ∧
     ("Password must be less than 128 characters" ∈
        (validatePasswordStrength (JsStringArg.str p)).errors ↔ 128 < p.length) ∧
     ("Password must contain at least one lowercase letter" ∈
        (validatePasswordStrength (JsStringArg.str p)).errors ↔ pwHasLower p = false) ∧
     ("Password must contain at least one uppercase letter" ∈
        (validatePasswordStrength (JsStringArg.str p)).errors ↔ pwHasUpper p = false) ∧
     ("Password must contain at least one number" ∈
        (validatePasswordStrength (JsStringArg.str p)).errors ↔ pwHasDigit p = false) ∧
     ("Password must contain at least one special character" ∈
        (validatePasswordStrength (JsStringArg.str p)).errors ↔ pwHasSpecial p = false) ∧
     ("Password contains common weak patterns" ∈
        (validatePasswordStrength (JsStringArg.str p)).errors ↔
        ∃ common ∈ commonPasswords, jsIncludes (jsToLowerCase p) common = true)) ∧
    validatePasswordStrength JsStringArg.notString =
      { isValid := false, errors := ["Password must be a string"], strength := none } := by
  refine ⟨?_, ?_, ?_, ⟨?_, ?_, ?_, ?_, ?_, ?_, ?_⟩, rfl⟩
  · simp [validatePasswordStrength, validatePasswordStrengthStr, List.length_eq_zero]
  · simp only [validatePasswordStrength, validatePasswordStrengthStr, beq_iff_eq,
      List.length_eq_zero, List.append_eq_nil, ite_singleton_eq_nil]
    simp [List.any_eq_true, Nat.not_lt, Bool.not_eq_true]
    tauto
  · simp only [validatePasswordStrength, validatePasswordStrengthStr, beq_iff_eq]
  · simp +decide [validatePasswordStrength, validatePasswordStrengthStr,
      List.mem_append, mem_ite_singleton]
  · simp +decide [validatePasswordStrength, validatePasswordStrengthStr,
      List.mem_append, mem_ite_singleton]
  · simp +decide [validatePasswordStrength, validatePasswordStrengthStr,
      List.mem_append, mem_ite_singleton]
  · simp +decide [validatePasswordStrength, validatePasswordStrengthStr,
      List.mem_append, mem_ite_singleton]
  · simp +decide [validatePasswordStrength, validatePasswordStrengthStr,
      List.mem_append, mem_ite_singleton]
  · simp +decide [validatePasswordStrength, validatePasswordStrengthStr,
      List.mem_append, mem_ite_singleton]
  · simp +decide [validatePasswordStrength, validatePasswordStrengthStr,
      List.mem_append, mem_ite_singleton, List.any_eq_true]

/-! ### Tiered policy application (C5) -/

set_option maxRecDepth 4000 in
/-- C5 is right that the admin tier is declared with `minLength = 12` and
that `applyPolicy("admin", "Administrator123!")` is rejected (third
conjunct, via the strength blocklist), but the middleware never reads the
`minLength` it destructures: the 8-character password `Xk3!mQpz`, which
passes every strength check and contains no admin pattern, is accepted
under the admin tier (first two conjuncts), and the 9-character
`Xk3!mQpz!` is accepted under the super-admin tier even though its
declared minimum is 16 (the two-special-characters rule, by contrast, is
enforced as a custom rule) — contradicting "allows p only if p has length
at least 12". -/
theorem c5_admin_policy_ignores_min_length :
    (passwordPolicyValidation passwordPoliciesAdmin emptyPasswordHistory
      (some ("Xk3!mQpz")) none).1 = PolicyDecision.allowed ∧
    ("Xk3!mQpz" : String).length = 8 ∧
    passwordPoliciesAdmin.minLength = 12 ∧
    (passwordPolicyValidation passwordPoliciesAdmin emptyPasswordHistory
      (some ("Administrator123!")) none).1 =
      PolicyDecision.rejected ("Password does not meet security requirements") ∧
    (passwordPolicyValidation passwordPoliciesSuperAdmin emptyPasswordHistory
      (some ("Xk3!mQpz!")) none).1 = PolicyDecision.allowed ∧
    ("Xk3!mQpz!" : String).length = 9 ∧
    passwordPoliciesSuperAdmin.minLength = 16 ∧
    (passwordPolicyValidation passwordPoliciesSuperAdmin emptyPasswordHistory
      (some ("Xk3!mQpzz")) none).1 =
      PolicyDecision.rejected ("Password must contain at least 2 special characters") := by
  decide

/-! ### Password history (C7, C8) -/

theorem addPasswordToHistory_apply (hist : PasswordHistory) (a p : String)
    (m : Nat) (u : String) :
    addPasswordToHistory hist a p m u = if u = a then (p :: hist a).take m else hist u := by
  unfold addPasswordToHistory
  by_cases hlen : m < (hist a).length + 1
  · simp [hlen]
  · have hfull : (p :: hist a).take m = p :: hist a :=
      List.take_of_length_le (by simp; omega)
    simp [hlen, hfull]

/-- C7.  Immediately after recording a password for an account, the reuse
check on that same password answers `false` (it matches the most recent
entry); and for any candidate matching none of the `historyCount` most
recent entries of the account, the check answers `true`. -/
theorem c7_history_reuse_check (hist : PasswordHistory) (userId password : String)
    (historyCount maxHistory : Nat) (hhc : 1 ≤ historyCount) (hmax : 1 ≤ maxHistory) :
    isPasswordNotInHistory (addPasswordToHistory hist userId password maxHistory)
      userId password historyCount = false ∧
    (∀ candidate, candidate ∉ (hist userId).take historyCount →
      isPasswordNotInHistory hist userId candidate historyCount = true) := by
  constructor
  · unfold isPasswordNotInHistory
    rw [addPasswordToHistory_apply, if_pos rfl]
    obtain ⟨m, rfl⟩ : ∃ m, maxHistory = m + 1 := ⟨maxHistory - 1, by omega⟩
    obtain ⟨hc, rfl⟩ : ∃ hc, historyCount = hc + 1 := ⟨historyCount - 1, by omega⟩
    simp [List.take_succ_cons, List.contains_cons]
  · intro candidate hcand
    unfold isPasswordNotInHistory
    simp only [Bool.not_eq_true', Bool.not_eq_true, List.contains_eq_any_beq]
    simp only [List.any_eq_false, beq_iff_eq]
    intro x hx he
    exact hcand (he ▸ hx)

/-- Closed instance of C7 with its hypotheses discharged. -/
theorem c7_history_reuse_check_witness :
    isPasswordNotInHistory
      (addPasswordToHistory emptyPasswordHistory ("acct") ("P@ssw0rd1") 10)
      ("acct") ("P@ssw0rd1") 5 = false ∧
    isPasswordNotInHistory emptyPasswordHistory ("acct") ("Different1") 5 = true :=
  ⟨(c7_history_reuse_check emptyPasswordHistory ("acct") ("P@ssw0rd1") 5 10
      (by decide) (by decide)).1,
   (c7_history_reuse_check emptyPasswordHistory ("acct") ("P@ssw0rd1") 5 10
      (by decide) (by decide)).2 ("Different1") (by decide)⟩

theorem take_cons_take (m : Nat) (p : String) (l : List String) :
    (p :: l.take m).take m = (p :: l).take m := by
  cases m with
  | zero => simp
  | succ k =>
    simp only [List.take_succ_cons, List.take_take]
    rw [Nat.min_eq_left (by omega)]

/-- C8.  After any sequence of recordings starting from the empty map,
each account's history is exactly the most-recent-first list of the
passwords recorded for it, truncated to `maxHistory` — hence the length
never exceeds the configured maximum and insertion at capacity evicts
the oldest entry. -/
theorem c8_history_canonical (maxHistory : Nat) (ops : List (String × String)) (u : String) :
    runHistoryOps maxHistory ops emptyPasswordHistory u =
      (((ops.filter fun op => op.1 == u).map Prod.snd).reverse).take maxHistory ∧
    (runHistoryOps maxHistory ops emptyPasswordHistory u).length ≤ maxHistory := by
  have main : runHistoryOps maxHistory ops emptyPasswordHistory u =
      (((ops.filter fun op => op.1 == u).map Prod.snd).reverse).take maxHistory := by
    induction ops using List.reverseRecOn with
    | nil => simp [runHistoryOps, emptyPasswordHistory]
    | append_singleton ops op ih =>
      have hstep : runHistoryOps maxHistory (ops ++ [op]) emptyPasswordHistory =
          addPasswordToHistory (runHistoryOps maxHistory ops emptyPasswordHistory)
            op.1 op.2 maxHistory := by
        simp [runHistoryOps, List.foldl_append]
      rw [hstep, addPasswordToHistory_apply]
      by_cases hu : u = op.1
      · subst hu
        rw [if_pos rfl, ih, take_cons_take]
        simp [List.filter_append, List.map_append, List.reverse_append]
      · rw [if_neg hu, ih]
        have hne : (op.1 == u) = false := beq_false_of_ne (fun h => hu h.symm)
        simp [List.filter_append, hne]
  exact ⟨main, by rw [main]; exact List.length_take_le _ _⟩

end Workflow

